import Mathlib

/-!
A verification development for the quantum-secure voting core of the
Q-Voting repository (FastAPI backend + React frontend).  The hard
engineering core — the BB84-style QKD session engine, the attack
simulator, and the hash-linked audit ledger — lives in the repository's
`/backend` directory, which is not included among the provided source
files; only its React callers are.  The definitions below therefore model
that core from the specification document, faithfully to its words, and
the theme-cycling logic is embedded directly from
`frontend/src/context/ThemeContext.jsx`.
-/

namespace QVoting

/-- Modelled from the spec: the structured error kinds of the core
(spec section 7); the backend implementation is missing from the
provided sources. -/
inductive QError where
  | SessionNotFound
  | SessionExpired
  | DuplicateKeyUse
  | InsufficientBasisMatches
  | InvalidAttackParameters
  | ChainVerificationFailure
  deriving DecidableEq

/-- Modelled from the spec: the per-session protocol state
`Created → KeyGenerated → Consumed` (spec section 3). -/
inductive SessionState where
  | Created
  | KeyGenerated
  | Consumed
  deriving DecidableEq

/-- Modelled from the spec: a QuantumSession record (spec section 3).
Timestamps are abstracted to natural numbers; the retained qubit/basis
arrays are simulation-local and appear as parameters of the exchange
rather than as stored fields. -/
structure QuantumSession where
  sid : Nat
  expiresAt : Nat
  state : SessionState
  error_rate : ℚ
  channel_secure : Bool
  deriving DecidableEq

/-- The session store, keyed by session id (spec section 6: "a session
store (may be ephemeral/in-memory, keyed by session_id)"). -/
abbrev SessionStore := List (Nat × QuantumSession)

def lookupSession : SessionStore → Nat → Option QuantumSession
  | [], _ => none
  | (k, s) :: rest, sid => if k = sid then some s else lookupSession rest sid

def updateSession : SessionStore → Nat → QuantumSession → SessionStore
  | [], _, _ => []
  | (k, s) :: rest, sid, s' =>
    if k = sid then (k, s') :: rest else (k, s) :: updateSession rest sid s'

/-- Modelled from the spec: the injectable, seedable generator
abstraction of design note section 9; a seed determines the sender's bit
stream and both parties' basis streams. -/
structure QRng where
  senderBit : Nat → Bool
  senderBasis : Nat → Bool
  receiverBasis : Nat → Bool

/-- The fixed protocol constant: 11% is "the maximum individual
eavesdropping information leakage tolerated before the exchange is
rejected" (spec section 4.1 step 6); it is internal, never a caller
parameter. -/
def detectionThreshold : ℚ := mkRat 11 100

/-- The internal sample size N of the exchange (spec section 4.1 step 2
leaves N implementation-internal). -/
def numQubits : Nat := 16

/-- Sifting (spec section 4.1 step 3): retain only the indices where
sender and receiver basis choices coincide. -/
def siftedIndices (rng : QRng) (n : Nat) : List Nat :=
  (List.range n).filter (fun i => rng.senderBasis i == rng.receiverBasis i)

/-- The sender's bits at the retained (sifted) indices. -/
def sentBits (rng : QRng) (n : Nat) : List Bool :=
  (siftedIndices rng n).map rng.senderBit

/-- The observable result of `generate_key` (spec section 6). -/
structure KeyGenOutput where
  error_rate : ℚ
  channel_secure : Bool
  key : List Bool
  deriving DecidableEq

deriving instance DecidableEq for Except

/-- Number of positions at which two bit lists disagree (compared
pointwise, up to the shorter length). -/
def mismatchCount : List Bool → List Bool → Nat
  | [], _ => 0
  | _ :: _, [] => 0
  | a :: as, b :: bs => (if a = b then 0 else 1) + mismatchCount as bs

/-- Modelled from the spec: steps 2-7 of `generate_key` (spec section
4.1).  The retained stream is routed through the attack simulator
(represented by the perturbation `perturb`, with the attack's random
draws externalized) exactly when `simAttack` is set; otherwise only the
baseline noise floor, which is 0 and deterministic, applies.  The error
rate is the mismatch fraction over the disclosed comparison half of the
retained indices, and the verdict compares it with the fixed threshold. -/
def runExchange (rng : QRng) (simAttack : Bool) (perturb : List Bool → List Bool) :
    Except QError KeyGenOutput :=
  let sent := sentBits rng numQubits
  if sent.length < 8 then .error .InsufficientBasisMatches
  else
    let received := if simAttack then perturb sent else sent
    let d := sent.length / 2
    let e : ℚ := mkRat (mismatchCount (sent.take d) (received.take d)) d
    let secure := decide (e < detectionThreshold)
    .ok { error_rate := e, channel_secure := secure,
          key := if secure then received.drop d else [] }

/-- Modelled from the spec: `generate_key(session_id, simulate_attack,
attack_type?)` (spec section 4.1).  Validation comes first: existence,
then the stored expiry deadline (spec section 5: checked at the start of
every session operation), then the protocol state; a session whose
exchange already ran fails with `DuplicateKeyUse` (spec sections 3 and
4.1).  On success the session transitions to `KeyGenerated` and records
the verdict. -/
def generate_key (st : SessionStore) (now sid : Nat) (simAttack : Bool)
    (perturb : List Bool → List Bool) (rng : QRng) :
    Except QError (KeyGenOutput × SessionStore) :=
  match lookupSession st sid with
  | none => .error .SessionNotFound
  | some s =>
    if s.expiresAt ≤ now then .error .SessionExpired
    else
      match s.state with
      | .Created =>
        match runExchange rng simAttack perturb with
        | .error e => .error e
        | .ok out =>
          .ok (out, updateSession st sid
            { s with state := .KeyGenerated,
                     error_rate := out.error_rate,
                     channel_secure := out.channel_secure })
      | .KeyGenerated => .error .DuplicateKeyUse
      | .Consumed => .error .DuplicateKeyUse

/-- Modelled from the spec: consuming the derived key (handing it to the
external vote-casting collaborator) transitions the session to
`Consumed`; consumption of an already-consumed session fails with
`DuplicateKeyUse` (spec sections 4.1 and 4.2 Replay).  The spec does not
name the error kind for the out-of-order consumption of a `Created`
session, only that it must be rejected (spec section 5); we reject it
with `DuplicateKeyUse` as well. -/
def consume_key (st : SessionStore) (now sid : Nat) : Except QError SessionStore :=
  match lookupSession st sid with
  | none => .error .SessionNotFound
  | some s =>
    if s.expiresAt ≤ now then .error .SessionExpired
    else
      match s.state with
      | .KeyGenerated => .ok (updateSession st sid { s with state := .Consumed })
      | .Consumed => .error .DuplicateKeyUse
      | .Created => .error .DuplicateKeyUse

/-- The attack capability set (spec section 4.2). -/
inductive AttackType where
  | InterceptResend
  | PhotonNumberSplit
  | Replay
  deriving DecidableEq

inductive SecurityStatus where
  | BLOCKED
  | UNDETECTED
  deriving DecidableEq

/-- Modelled from the spec: the immutable result of one simulate-attack
call (spec section 3). -/
structure AttackResult where
  attack_type : AttackType
  error_rate : ℚ
  detected_by_system : Bool
  security_status : SecurityStatus
  deriving DecidableEq

/-- Modelled from the spec: the Replay attack (spec section 4.2) "does
not perturb bits; instead models resubmission of a previously consumed
session's transcript"; detection is identity-based: the attack is
detected exactly when the re-invocation is rejected with
`DuplicateKeyUse`, and that rejection is the reported detection. -/
def replay_attack (st : SessionStore) (now sid : Nat) (rng : QRng) : AttackResult :=
  let outcome := generate_key st now sid false (fun l => l) rng
  let det := match outcome with
    | .error .DuplicateKeyUse => true
    | _ => false
  { attack_type := .Replay, error_rate := 0, detected_by_system := det,
    security_status := if det then .BLOCKED else .UNDETECTED }

/-- Projection of a `generate_key` outcome to its externally observable
verdict (error rate and security verdict), `none` on failure. -/
def keyGenVerdict (r : Except QError (KeyGenOutput × SessionStore)) : Option (ℚ × Bool) :=
  match r with
  | .ok (out, _) => some (out.error_rate, out.channel_secure)
  | .error _ => none

lemma mismatchCount_self (l : List Bool) : mismatchCount l l = 0 := by
  induction l with
  | nil => rfl
  | cons a as ih => simp [mismatchCount, ih]

lemma runExchange_secure (rng : QRng) (sa : Bool) (p : List Bool → List Bool)
    (out : KeyGenOutput) (h : runExchange rng sa p = .ok out) :
    out.channel_secure = decide (out.error_rate < detectionThreshold) := by
  simp only [runExchange] at h
  by_cases hlt : (sentBits rng numQubits).length < 8
  · rw [if_pos hlt] at h
    exact absurd h (by simp)
  · rw [if_neg hlt] at h
    simp only [Except.ok.injEq] at h
    subst h
    rfl

/-- A session with no attack simulated and the zero noise floor always
receives exactly what was sent, so the mismatch count on the disclosed
half is zero. -/
lemma runExchange_no_attack (rng : QRng) (p : List Bool → List Bool)
    (h : 8 ≤ (sentBits rng numQubits).length) :
    runExchange rng false p =
      .ok { error_rate := 0, channel_secure := true,
            key := (sentBits rng numQubits).drop ((sentBits rng numQubits).length / 2) } := by
  have hlt : ¬ (sentBits rng numQubits).length < 8 := not_lt.mpr h
  have hpos : decide ((0 : ℚ) < detectionThreshold) = true := by decide
  simp only [runExchange, Bool.false_eq_true, if_false]
  rw [if_neg hlt]
  simp only [mismatchCount_self, Int.natCast_zero, Rat.zero_mkRat, hpos, Except.ok.injEq,
    if_true]

/-- A deterministic demo generator: all bits 1, both parties choose the
same basis everywhere (all indices survive sifting). -/
def demoRng : QRng :=
  { senderBit := fun _ => true, senderBasis := fun _ => true, receiverBasis := fun _ => true }

/-- A second demo generator with a different stream (a different seed):
alternating bits, both parties on the other basis. -/
def demoRng2 : QRng :=
  { senderBit := fun i => i % 2 == 0, senderBasis := fun _ => false,
    receiverBasis := fun _ => false }

def demoSession : QuantumSession :=
  { sid := 1, expiresAt := 100, state := .Created, error_rate := 0, channel_secure := false }

def demoStore : SessionStore := [(1, demoSession)]

def consumedSession : QuantumSession :=
  { sid := 2, expiresAt := 100, state := .Consumed, error_rate := 0, channel_secure := true }

def consumedStore : SessionStore := [(2, consumedSession)]

/-- A store holding a session that is both `Consumed` and past its
expiry deadline (deadline 5, observed at time 10). -/
def expiredStore : SessionStore :=
  [(7, { sid := 7, expiresAt := 5, state := .Consumed, error_rate := 0, channel_secure := true })]

lemma generate_key_no_attack (st : SessionStore) (now sid : Nat) (s : QuantumSession)
    (hl : lookupSession st sid = some s) (hst : s.state = .Created)
    (he : ¬ s.expiresAt ≤ now) (rng : QRng) (p : List Bool → List Bool)
    (h8 : 8 ≤ (sentBits rng numQubits).length) :
    keyGenVerdict (generate_key st now sid false p rng) = some (0, true) := by
  simp only [generate_key, hl, if_neg he, hst, runExchange_no_attack rng p h8, keyGenVerdict]

/-- C1: for every result returned by `generate_key`, the boolean
`channel_secure` equals `error_rate < 0.11`, where 0.11 is the fixed
internal constant `detectionThreshold`, never a caller parameter; this
holds for every `generate_key` result with no exceptions. -/
theorem claim_C1_channel_secure_is_threshold_comparison
    (st : SessionStore) (now sid : Nat) (sa : Bool) (perturb : List Bool → List Bool)
    (rng : QRng) (out : KeyGenOutput) (st' : SessionStore)
    (h : generate_key st now sid sa perturb rng = .ok (out, st')) :
    out.channel_secure = decide (out.error_rate < detectionThreshold) ∧
    detectionThreshold = 11 / 100 := by
  refine ⟨?_, by norm_num [detectionThreshold, mkRat, Rat.normalize]⟩
  unfold generate_key at h
  split at h
  · exact absurd h (by simp)
  · split at h
    · exact absurd h (by simp)
    · split at h
      · split at h
        · exact absurd h (by simp)
        next o heq =>
          simp only [Except.ok.injEq, Prod.mk.injEq] at h
          exact h.1 ▸ runExchange_secure _ _ _ _ heq
      · exact absurd h (by simp)
      · exact absurd h (by simp)

/-- Witness for C1 at a concrete input: a fresh session, no attack,
the all-ones generator. -/
theorem claim_C1_witness :
    ({ error_rate := 0, channel_secure := true,
       key := List.replicate 8 true } : KeyGenOutput).channel_secure =
      decide (({ error_rate := 0, channel_secure := true,
                 key := List.replicate 8 true } : KeyGenOutput).error_rate < detectionThreshold) ∧
    detectionThreshold = 11 / 100 :=
  claim_C1_channel_secure_is_threshold_comparison demoStore 0 1 false (fun l => l) demoRng
    { error_rate := 0, channel_secure := true, key := List.replicate 8 true }
    [(1, { sid := 1, expiresAt := 100, state := .KeyGenerated, error_rate := 0,
           channel_secure := true })]
    (by decide)

/-- C2 counterexample: a session that is `Consumed` but whose expiry
deadline has also passed is rejected with `SessionExpired`, not with
`DuplicateKeyUse` (expiry is checked at the start of every session
operation, before the state check), refuting the claim as stated. -/
theorem claim_C2_counterexample :
    generate_key expiredStore 10 7 false (fun l => l) demoRng = .error .SessionExpired ∧
    consume_key expiredStore 10 7 = .error .SessionExpired ∧
    QError.SessionExpired ≠ QError.DuplicateKeyUse :=
  ⟨rfl, rfl, by decide⟩

/-- C2 (amended): for every *non-expired* session in state `Consumed`,
any second `generate_key` call or vote-consumption call against that
session id fails with `DuplicateKeyUse` and never returns new key
material; on the Replay attack path that rejection is the reported
detection (`detected_by_system = true`, `security_status = BLOCKED`). -/
theorem claim_C2_consumed_session_rejected
    (st : SessionStore) (now sid : Nat) (s : QuantumSession)
    (hl : lookupSession st sid = some s) (hc : s.state = .Consumed)
    (he : ¬ s.expiresAt ≤ now) (sa : Bool) (p : List Bool → List Bool) (rng : QRng) :
    generate_key st now sid sa p rng = .error .DuplicateKeyUse ∧
    consume_key st now sid = .error .DuplicateKeyUse ∧
    (replay_attack st now sid rng).detected_by_system = true ∧
    (replay_attack st now sid rng).security_status = .BLOCKED := by
  have hg0 : generate_key st now sid false (fun l => l) rng = .error .DuplicateKeyUse := by
    simp only [generate_key, hl, if_neg he, hc]
  have hg : generate_key st now sid sa p rng = .error .DuplicateKeyUse := by
    simp only [generate_key, hl, if_neg he, hc]
  have hcns : consume_key st now sid = .error .DuplicateKeyUse := by
    simp only [consume_key, hl, if_neg he, hc]
  exact ⟨hg, hcns, by simp [replay_attack, hg0], by simp [replay_attack, hg0]⟩

/-- Witness for the amended C2 at a concrete consumed, non-expired
session. -/
theorem claim_C2_witness :
    generate_key consumedStore 0 2 false (fun l => l) demoRng = .error .DuplicateKeyUse ∧
    consume_key consumedStore 0 2 = .error .DuplicateKeyUse ∧
    (replay_attack consumedStore 0 2 demoRng).detected_by_system = true ∧
    (replay_attack consumedStore 0 2 demoRng).security_status = .BLOCKED :=
  claim_C2_consumed_session_rejected consumedStore 0 2 consumedSession rfl rfl
    (by decide) false (fun l => l) demoRng

/-- C6: for every valid non-expired session in state `Created`,
`generate_key` with `simulate_attack = false` and the baseline noise
floor at 0 returns `error_rate = 0` and `channel_secure = true`, and
does so deterministically across repeated calls with different random
seeds: two runs with different seed-derived streams produce the same
verdict `some (0, true)`. -/
theorem claim_C6_no_attack_zero_error_deterministic
    (st : SessionStore) (now sid : Nat) (s : QuantumSession)
    (hl : lookupSession st sid = some s) (hst : s.state = .Created)
    (he : ¬ s.expiresAt ≤ now) (rng1 rng2 : QRng) (p1 p2 : List Bool → List Bool)
    (h1 : 8 ≤ (sentBits rng1 numQubits).length)
    (h2 : 8 ≤ (sentBits rng2 numQubits).length) :
    keyGenVerdict (generate_key st now sid false p1 rng1) = some (0, true) ∧
    keyGenVerdict (generate_key st now sid false p2 rng2) = some (0, true) :=
  ⟨generate_key_no_attack st now sid s hl hst he rng1 p1 h1,
   generate_key_no_attack st now sid s hl hst he rng2 p2 h2⟩

/-- Witness for C6: two concrete different generators on the same fresh
session both yield error rate 0 and a secure verdict. -/
theorem claim_C6_witness :
    keyGenVerdict (generate_key demoStore 0 1 false (fun l => l) demoRng) = some (0, true) ∧
    keyGenVerdict (generate_key demoStore 0 1 false (fun l => l) demoRng2) = some (0, true) :=
  claim_C6_no_attack_zero_error_deterministic demoStore 0 1 demoSession rfl rfl
    (by decide) demoRng demoRng2 (fun l => l) (fun l => l) (by decide) (by decide)

/-- C8 counterexample: an expired session is *not* treated identically
to a not-found session in every externally observable respect: both
fail, with no side effects, but the error kinds differ
(`SessionExpired` vs `SessionNotFound`). -/
theorem claim_C8_counterexample :
    generate_key expiredStore 10 7 false (fun l => l) demoRng = .error .SessionExpired ∧
    generate_key expiredStore 10 99 false (fun l => l) demoRng = .error .SessionNotFound ∧
    (Except.error QError.SessionExpired : Except QError (KeyGenOutput × SessionStore)) ≠
      .error .SessionNotFound :=
  ⟨rfl, rfl, by simp⟩

/-- C8 (amended): every session operation checks the stored expiry
deadline at its start; an expired session is treated like a not-found
session in result and side effects — the operation fails immediately
and nothing is mutated or returned — but reports the error kind
`SessionExpired` rather than `SessionNotFound`. -/
theorem claim_C8_expiry_checked_at_start
    (st : SessionStore) (now sid : Nat) (s : QuantumSession)
    (hl : lookupSession st sid = some s) (hx : s.expiresAt ≤ now)
    (sa : Bool) (p : List Bool → List Bool) (rng : QRng) :
    generate_key st now sid sa p rng = .error .SessionExpired ∧
    consume_key st now sid = .error .SessionExpired ∧
    (∀ sid2, lookupSession st sid2 = none →
      generate_key st now sid2 sa p rng = .error .SessionNotFound ∧
      consume_key st now sid2 = .error .SessionNotFound) := by
  refine ⟨?_, ?_, fun sid2 hn => ⟨?_, ?_⟩⟩
  · simp only [generate_key, hl, if_pos hx]
  · simp only [consume_key, hl, if_pos hx]
  · simp only [generate_key, hn]
  · simp only [consume_key, hn]

/-- Witness for the amended C8 at a concrete expired session. -/
theorem claim_C8_witness :
    generate_key expiredStore 10 7 true (fun l => l) demoRng = .error .SessionExpired ∧
    consume_key expiredStore 10 7 = .error .SessionExpired ∧
    (∀ sid2, lookupSession expiredStore sid2 = none →
      generate_key expiredStore 10 sid2 true (fun l => l) demoRng = .error .SessionNotFound ∧
      consume_key expiredStore 10 sid2 = .error .SessionNotFound) :=
  claim_C8_expiry_checked_at_start expiredStore 10 7
    { sid := 7, expiresAt := 5, state := .Consumed, error_rate := 0, channel_secure := true }
    rfl (by decide) true (fun l => l) demoRng

/-- Modelled from the spec: the process-wide AttackHistoryStats counters
(spec section 3), with explicit initialization to zero at startup (spec
section 9 design note). -/
structure AttackHistoryStats where
  total_attacks : Nat
  detected : Nat
  blocked : Nat
  deriving DecidableEq

def initialStats : AttackHistoryStats :=
  { total_attacks := 0, detected := 0, blocked := 0 }

/-- Each simulate-attack invocation increments the history counters
(spec section 4.2: "Each invocation returns an AttackResult and
increments AttackHistoryStats"). -/
def recordAttack (st : AttackHistoryStats) (a : AttackResult) : AttackHistoryStats :=
  { total_attacks := st.total_attacks + 1,
    detected := st.detected + (if a.detected_by_system then 1 else 0),
    blocked := st.blocked + (if a.security_status = .BLOCKED then 1 else 0) }

/-- The stats state reached after a given history of simulate-attack
calls, starting from the zero-initialized state. -/
def statsOf (l : List AttackResult) : AttackHistoryStats :=
  l.foldl recordAttack initialStats

/-- The external view returned by `get_attack_history` (spec section 6). -/
structure AttackHistoryView where
  total_attacks : Nat
  detected : Nat
  blocked : Nat
  detection_rate : ℚ
  deriving DecidableEq

/-- Modelled from the spec: `get_attack_history` (spec sections 3 and
6); `detection_rate = 100·detected/total, defined as 0 when
total_attacks = 0`. -/
def get_attack_history (st : AttackHistoryStats) : AttackHistoryView :=
  { total_attacks := st.total_attacks, detected := st.detected, blocked := st.blocked,
    detection_rate :=
      if st.total_attacks = 0 then 0 else mkRat (100 * st.detected) st.total_attacks }

lemma foldl_recordAttack_total (l : List AttackResult) (acc : AttackHistoryStats) :
    (l.foldl recordAttack acc).total_attacks = acc.total_attacks + l.length := by
  induction l generalizing acc with
  | nil => simp
  | cons a as ih =>
    rw [List.foldl_cons, ih]
    simp [recordAttack]
    omega

lemma foldl_recordAttack_detected (l : List AttackResult) (acc : AttackHistoryStats) :
    (l.foldl recordAttack acc).detected =
      acc.detected + l.countP (fun a => a.detected_by_system) := by
  induction l generalizing acc with
  | nil => simp
  | cons a as ih =>
    rw [List.foldl_cons, ih, List.countP_cons]
    simp [recordAttack]
    omega

/-- C5: for every reachable state of the process-wide
AttackHistoryStats, `get_attack_history` returns
`detection_rate = 100 × detected / total_attacks`, and returns 0 (a
total rational value, not NaN and not an error) whenever
`total_attacks = 0`; the counters themselves aggregate the recorded
attack history. -/
theorem claim_C5_detection_rate (s : AttackHistoryStats) (l : List AttackResult) (d b : Nat) :
    (get_attack_history s).detection_rate =
      100 * (s.detected : ℚ) / (s.total_attacks : ℚ) ∧
    (get_attack_history
      { total_attacks := 0, detected := d, blocked := b }).detection_rate = 0 ∧
    (statsOf l).total_attacks = l.length ∧
    (statsOf l).detected = l.countP (fun a => a.detected_by_system) := by
  refine ⟨?_, ?_, ?_, ?_⟩
  · unfold get_attack_history
    by_cases ht : s.total_attacks = 0
    · simp [ht]
    · simp only [ht, if_false]
      rw [Rat.mkRat_eq_div]
      push_cast
      ring
  · simp [get_attack_history]
  · rw [statsOf, foldl_recordAttack_total]
    simp [initialStats]
  · rw [statsOf, foldl_recordAttack_detected]
    simp [initialStats]

/-- The fixed theme key order of the `themes` object in
`frontend/src/context/ThemeContext.jsx` (`Object.keys(themes)`). -/
def themeKeys : List String := ["dark-royal", "ocean-gradient", "emerald-glow"]

/-- JavaScript `Array.prototype.indexOf` on a list of strings: the
first index of `s`, or -1 when `s` does not occur. -/
def jsIndexOf : List String → String → Int
  | [], _ => -1
  | a :: as, s =>
    if a = s then 0
    else
      let r := jsIndexOf as s
      if r = -1 then -1 else r + 1

/-- `cycleTheme` from `frontend/src/context/ThemeContext.jsx`:
`nextIndex = (themeKeys.indexOf(theme) + 1) % themeKeys.length`, then
the key at `nextIndex` becomes the new theme. -/
def cycleTheme (theme : String) : String :=
  let currentIndex := jsIndexOf themeKeys theme
  let nextIndex := (currentIndex + 1) % (themeKeys.length : Int)
  themeKeys.getD nextIndex.toNat ""

lemma jsIndexOf_of_not_mem (l : List String) (s : String) (h : s ∉ l) :
    jsIndexOf l s = -1 := by
  induction l with
  | nil => rfl
  | cons a as ih =>
    have ha : ¬ a = s := fun he => h (by simp [he])
    have hm : s ∉ as := fun hm => h (List.mem_cons_of_mem _ hm)
    simp [jsIndexOf, ha, ih hm]

/-- C9: `cycleTheme` advances the current theme to the next key in the
fixed order dark-royal, ocean-gradient, emerald-glow, wrapping around,
so applying it three times to any theme in that set returns the
starting theme; for any current value outside the set, one application
yields dark-royal. -/
theorem claim_C9_cycleTheme_period_three (t u : String)
    (ht : t ∈ themeKeys) (hu : u ∉ themeKeys) :
    cycleTheme (cycleTheme (cycleTheme t)) = t ∧ cycleTheme u = "dark-royal" := by
  constructor
  · fin_cases ht <;> decide
  · rw [cycleTheme, jsIndexOf_of_not_mem _ _ hu]
    rfl

/-- Witness for C9 at a member theme and a non-member string. -/
theorem claim_C9_witness :
    cycleTheme (cycleTheme (cycleTheme "ocean-gradient")) = "ocean-gradient" ∧
    cycleTheme "neon-pink" = "dark-royal" :=
  claim_C9_cycleTheme_period_three "ocean-gradient" "neon-pink" (by decide) (by decide)

/-- Modelled from the spec: the fixed genesis constant standing in for
the previous-hash of the first block (spec section 3). -/
def genesisHash : Nat := 0

/-- Modelled from the spec: the collision-resistant digest of an action
payload (spec section 9 design note leaves the digest family open,
requiring only determinism and collision resistance); collision freedom
is modelled by an injective pairing, and payloads, action tags and
timestamps are abstracted to numeric codes. -/
def digestPayload (payload : Nat) : Nat := Nat.pair 1 payload

/-- Modelled from the spec: the block digest
`self_hash = digest(previous_hash ∥ data_hash ∥ timestamp ∥ action)`
(spec sections 3 and 4.3), as an injective pairing of exactly those four
stored fields. -/
def digestBlock (prev dataHash ts action : Nat) : Nat :=
  Nat.pair prev (Nat.pair dataHash (Nat.pair ts action))

/-- Modelled from the spec: one AuditBlock (spec section 3). -/
structure AuditBlock where
  block_id : Nat
  timestamp : Nat
  action : Nat
  data_hash : Nat
  previous_hash : Nat
  self_hash : Nat
  deriving DecidableEq

/-- The payload of one append call: an action tag, its payload, and the
timestamp recorded with it. -/
structure AuditEntry where
  action : Nat
  payload : Nat
  timestamp : Nat
  deriving DecidableEq

/-- The self-hash of the last block of the list, or `h` when the list
is empty. -/
def runningHash (h : Nat) : List AuditBlock → Nat
  | [] => h
  | b :: bs => runningHash b.self_hash bs

/-- The hash of the chain head: the last block's self-hash, or the
genesis constant for the empty chain. -/
def chainHead (c : List AuditBlock) : Nat := runningHash genesisHash c

/-- Modelled from the spec: `append(action, payload)` (spec section
4.3): computes `data_hash = digest(payload)`,
`self_hash = digest(previous_hash ∥ data_hash ∥ timestamp ∥ action)`,
appends an AuditBlock, advances the chain head; strictly append-only. -/
def appendBlock (c : List AuditBlock) (e : AuditEntry) : List AuditBlock :=
  let prev := chainHead c
  let dh := digestPayload e.payload
  c ++ [{ block_id := c.length, timestamp := e.timestamp, action := e.action,
          data_hash := dh, previous_hash := prev,
          self_hash := digestBlock prev dh e.timestamp e.action }]

def genesisEntry : AuditEntry := { action := 0, payload := 0, timestamp := 0 }

/-- The chain created once at process start: just the genesis block. -/
def initChain : List AuditBlock := appendBlock [] genesisEntry

/-- The chain reached from process start by a sequence of appends. -/
def buildChain (es : List AuditEntry) : List AuditBlock :=
  es.foldl appendBlock initChain

/-- One verification step (spec section 4.3): the stored `self_hash`
must equal the digest recomputed from the block's own stored fields, and
the stored `previous_hash` must match the prior block's self-hash (the
genesis constant for the first block). -/
def checkBlock (prev : Nat) (b : AuditBlock) : Bool :=
  (b.self_hash == digestBlock b.previous_hash b.data_hash b.timestamp b.action) &&
  (b.previous_hash == prev)

/-- Walk the chain; `none` when all checks pass, otherwise the index of
the first divergent block. -/
def verifyFrom (prev i : Nat) : List AuditBlock → Option Nat
  | [] => none
  | b :: bs => if checkBlock prev b then verifyFrom b.self_hash (i + 1) bs else some i

inductive VerifyResult where
  | VERIFIED
  | ALERT (firstBad : Nat)
  deriving DecidableEq

/-- Modelled from the spec: `verify_chain()` (spec section 4.3):
recomputes every block's self-hash from its stored fields, checks every
previous-hash link, and returns `VERIFIED`, or `ALERT` together with the
index of the first divergent block. -/
def verify_chain (c : List AuditBlock) : VerifyResult :=
  match verifyFrom genesisHash 0 c with
  | none => .VERIFIED
  | some i => .ALERT i

/-- A mutation of one stored field of one block to a given new value. -/
inductive FieldMutation where
  | blockId (v : Nat)
  | timestamp (v : Nat)
  | actionTag (v : Nat)
  | dataHash (v : Nat)
  | prevHash (v : Nat)
  | selfHash (v : Nat)
  deriving DecidableEq

def applyMutation (b : AuditBlock) : FieldMutation → AuditBlock
  | .blockId v => { b with block_id := v }
  | .timestamp v => { b with timestamp := v }
  | .actionTag v => { b with action := v }
  | .dataHash v => { b with data_hash := v }
  | .prevHash v => { b with previous_hash := v }
  | .selfHash v => { b with self_hash := v }

/-- Overwrite one stored field of the block at index `i`. -/
def mutateChain (c : List AuditBlock) (i : Nat) (m : FieldMutation) : List AuditBlock :=
  match c.get? i with
  | none => c
  | some b => c.set i (applyMutation b m)

/-- The mutation actually changes the stored field (tampering, not a
no-op overwrite with the old value). -/
def changesField (b : AuditBlock) : FieldMutation → Bool
  | .blockId v => v != b.block_id
  | .timestamp v => v != b.timestamp
  | .actionTag v => v != b.action
  | .dataHash v => v != b.data_hash
  | .prevHash v => v != b.previous_hash
  | .selfHash v => v != b.self_hash

/-- The mutated field is one of the five fields covered by chain
verification; `block_id` is stored in the block but enters neither the
self-hash nor the link check. -/
def touchesVerifiedField : FieldMutation → Bool
  | .blockId _ => false
  | _ => true

lemma digestBlock_inj {p d t a p' d' t' a' : Nat}
    (h : digestBlock p d t a = digestBlock p' d' t' a') :
    p = p' ∧ d = d' ∧ t = t' ∧ a = a' := by
  unfold digestBlock at h
  have h1 := Nat.pair_eq_pair.mp h
  have h2 := Nat.pair_eq_pair.mp h1.2
  have h3 := Nat.pair_eq_pair.mp h2.2
  exact ⟨h1.1, h2.1, h3.1, h3.2⟩

lemma checkBlock_false_of_self_ne (prev : Nat) (b : AuditBlock)
    (h : ¬ b.self_hash = digestBlock b.previous_hash b.data_hash b.timestamp b.action) :
    checkBlock prev b = false := by
  unfold checkBlock
  rw [beq_eq_false_iff_ne.mpr h, Bool.false_and]

/-- Overwriting any verified stored field with a different value breaks
the self-hash recomputation check (collision freedom of the digest). -/
lemma checkBlock_mutated_false (H : Nat) (b : AuditBlock) (m : FieldMutation)
    (hself : b.self_hash = digestBlock b.previous_hash b.data_hash b.timestamp b.action)
    (hch : changesField b m = true) (htv : touchesVerifiedField m = true) :
    checkBlock H (applyMutation b m) = false := by
  obtain ⟨bid, bts, bact, bdh, bph, bsh⟩ := b
  simp only at hself
  cases m with
  | blockId v => simp [touchesVerifiedField] at htv
  | timestamp v =>
    apply checkBlock_false_of_self_ne
    simp only [applyMutation]
    intro hcontra
    rw [hself] at hcontra
    have hv := (digestBlock_inj hcontra).2.2.1
    simp [changesField, hv] at hch
  | actionTag v =>
    apply checkBlock_false_of_self_ne
    simp only [applyMutation]
    intro hcontra
    rw [hself] at hcontra
    have hv := (digestBlock_inj hcontra).2.2.2
    simp [changesField, hv] at hch
  | dataHash v =>
    apply checkBlock_false_of_self_ne
    simp only [applyMutation]
    intro hcontra
    rw [hself] at hcontra
    have hv := (digestBlock_inj hcontra).2.1
    simp [changesField, hv] at hch
  | prevHash v =>
    apply checkBlock_false_of_self_ne
    simp only [applyMutation]
    intro hcontra
    rw [hself] at hcontra
    have hv := (digestBlock_inj hcontra).1
    simp [changesField, hv] at hch
  | selfHash v =>
    apply checkBlock_false_of_self_ne
    simp only [applyMutation]
    intro hcontra
    rw [← hself] at hcontra
    simp [changesField, hcontra] at hch

lemma verifyFrom_append (l₁ l₂ : List AuditBlock) (prev i : Nat) :
    verifyFrom prev i (l₁ ++ l₂) =
      match verifyFrom prev i l₁ with
      | some j => some j
      | none => verifyFrom (runningHash prev l₁) (i + l₁.length) l₂ := by
  induction l₁ generalizing prev i with
  | nil => simp [verifyFrom, runningHash]
  | cons b bs ih =>
    rw [List.cons_append]
    by_cases hc : checkBlock prev b = true
    · simp only [verifyFrom, hc, if_true]
      rw [ih]
      cases hv : verifyFrom b.self_hash (i + 1) bs with
      | some j => simp [runningHash]
      | none =>
        simp only [runningHash, List.length_cons]
        congr 1
        omega
    · simp [verifyFrom, hc]

lemma verifyFrom_appendBlock (c : List AuditBlock) (e : AuditEntry)
    (h : verifyFrom genesisHash 0 c = none) :
    verifyFrom genesisHash 0 (appendBlock c e) = none := by
  unfold appendBlock
  rw [verifyFrom_append, h]
  simp [verifyFrom, checkBlock, chainHead]

lemma buildChain_wf (es : List AuditEntry) :
    verifyFrom genesisHash 0 (buildChain es) = none := by
  induction es using List.reverseRecOn with
  | nil => decide
  | append_singleton as e ih =>
    rw [buildChain, List.foldl_append, List.foldl_cons, List.foldl_nil]
    exact verifyFrom_appendBlock _ _ ih

lemma verifyFrom_prefix (l₁ l₂ : List AuditBlock) (prev i : Nat)
    (h : verifyFrom prev i (l₁ ++ l₂) = none) :
    verifyFrom prev i l₁ = none := by
  rw [verifyFrom_append] at h
  cases hv : verifyFrom prev i l₁ with
  | none => rfl
  | some j =>
    rw [hv] at h
    simp at h

lemma verifyFrom_none_head (prev i : Nat) (b : AuditBlock) (bs : List AuditBlock)
    (h : verifyFrom prev i (b :: bs) = none) :
    checkBlock prev b = true ∧ verifyFrom b.self_hash (i + 1) bs = none := by
  by_cases hc : checkBlock prev b = true
  · simp only [verifyFrom, hc, if_true] at h
    exact ⟨hc, h⟩
  · simp [verifyFrom, hc] at h

lemma verifyFrom_none_adjacent (l : List AuditBlock) (prev i : Nat)
    (h : verifyFrom prev i l = none) :
    ∀ j b b', l.get? j = some b → l.get? (j + 1) = some b' →
      b'.previous_hash = b.self_hash ∧
      b'.self_hash = digestBlock b'.previous_hash b'.data_hash b'.timestamp b'.action := by
  induction l generalizing prev i with
  | nil =>
    intro j b b' hb
    simp at hb
  | cons hd tl ih =>
    obtain ⟨hc, hrec⟩ := verifyFrom_none_head _ _ _ _ h
    intro j b b' hb hb'
    cases j with
    | zero =>
      simp only [List.get?_cons_zero, Option.some.injEq] at hb
      cases tl with
      | nil => simp at hb'
      | cons hd2 tl2 =>
        simp only [List.get?_cons_succ, List.get?_cons_zero, Option.some.injEq] at hb'
        obtain ⟨hc2, _⟩ := verifyFrom_none_head _ _ _ _ hrec
        subst hb
        subst hb'
        simp only [checkBlock, Bool.and_eq_true, beq_iff_eq] at hc2
        exact ⟨hc2.2, hc2.1⟩
    | succ j' =>
      exact ih _ _ hrec j' b b' (by simpa using hb) (by simpa using hb')

/-- The core tamper-evidence lemma: overwriting any verified stored
field of the block at index `i` of a well-formed chain with a different
value makes verification fail first exactly at index `i`. -/
lemma verify_mutated (c : List AuditBlock) (i : Nat) (m : FieldMutation)
    (hwf : verifyFrom genesisHash 0 c = none) (hi : i < c.length)
    (hch : changesField (c.get ⟨i, hi⟩) m = true)
    (htv : touchesVerifiedField m = true) :
    verifyFrom genesisHash 0 (mutateChain c i m) = some i := by
  have hget : c.get? i = some (c.get ⟨i, hi⟩) := List.get?_eq_get hi
  set b := c.get ⟨i, hi⟩ with hb
  -- decompose the original chain around index i
  have hsplit : c = c.take i ++ b :: c.drop (i + 1) := by
    conv_lhs => rw [← List.take_append_drop i c]
    congr 1
    rw [List.drop_eq_getElem_cons hi]
    simp [hb, List.get_eq_getElem]
  have htake : (c.take i).length = i := by
    rw [List.length_take]
    omega
  -- the prefix before i verifies, with running hash H
  have hpre : verifyFrom genesisHash 0 (c.take i) = none := by
    apply verifyFrom_prefix (c.take i) (b :: c.drop (i + 1))
    rw [← hsplit]
    exact hwf
  -- the original block at i passed both checks against H
  have hmid : verifyFrom (runningHash genesisHash (c.take i)) (0 + (c.take i).length)
      (b :: c.drop (i + 1)) = none := by
    have := hwf
    rw [hsplit, verifyFrom_append, hpre] at this
    exact this
  obtain ⟨hcb, _⟩ := verifyFrom_none_head _ _ _ _ hmid
  simp only [checkBlock, Bool.and_eq_true, beq_iff_eq] at hcb
  obtain ⟨hself, hprev⟩ := hcb
  -- the mutated block fails its self-hash check against H
  have hfail : checkBlock (runningHash genesisHash (c.take i)) (applyMutation b m) = false :=
    checkBlock_mutated_false _ b m hself hch htv
  -- assemble: mutation splits as prefix ++ mutated :: suffix
  have hmut : mutateChain c i m = c.take i ++ applyMutation b m :: c.drop (i + 1) := by
    rw [mutateChain, hget]
    exact List.set_eq_take_cons_drop _ hi
  rw [hmut, verifyFrom_append, hpre]
  simp only [verifyFrom, hfail, Bool.false_eq_true, if_false, htake, Nat.zero_add]

def demoEntry : AuditEntry := { action := 3, payload := 5, timestamp := 1 }

def demoEntry2 : AuditEntry := { action := 4, payload := 9, timestamp := 2 }

def dummyBlock : AuditBlock :=
  { block_id := 0, timestamp := 0, action := 0, data_hash := 0,
    previous_hash := 0, self_hash := 0 }

/-- C3 counterexample: `block_id` is a stored field of AuditBlock (spec
section 3), but `self_hash` is a digest over previous_hash, data_hash,
timestamp and action only, and verification recomputes exactly those, so
overwriting `block_id` with a different value is a single-stored-field
mutation after which `verify_chain` still returns `VERIFIED`, not
`ALERT` at that index. -/
theorem claim_C3_counterexample :
    changesField ((buildChain [demoEntry]).getD 1 dummyBlock) (.blockId 42) = true ∧
    verify_chain (mutateChain (buildChain [demoEntry]) 1 (.blockId 42)) = .VERIFIED ∧
    VerifyResult.VERIFIED ≠ VerifyResult.ALERT 1 := by
  decide

/-- C3 (amended): for every audit chain built by appends, every block
after the genesis block satisfies `previous_hash = self_hash(block[i-1])`
and its stored `self_hash` equals the digest recomputed from its own
stored fields; an unmodified chain of any length verifies as `VERIFIED`;
and mutating any single stored field *that enters verification*
(timestamp, action, data_hash, previous_hash or self_hash — all stored
fields except `block_id`, which is covered by neither the self-hash nor
the link check) of any block afterwards makes `verify_chain` return
`ALERT` with that block's index as the first divergence. -/
theorem claim_C3_hash_chain_integrity (es : List AuditEntry) (i : Nat) (m : FieldMutation)
    (hi : i < (buildChain es).length)
    (hch : changesField ((buildChain es).get ⟨i, hi⟩) m = true)
    (htv : touchesVerifiedField m = true) :
    (∀ j b b', (buildChain es).get? j = some b →
      (buildChain es).get? (j + 1) = some b' →
      b'.previous_hash = b.self_hash ∧
      b'.self_hash = digestBlock b'.previous_hash b'.data_hash b'.timestamp b'.action) ∧
    verify_chain (buildChain es) = .VERIFIED ∧
    verify_chain (mutateChain (buildChain es) i m) = .ALERT i := by
  refine ⟨verifyFrom_none_adjacent _ _ _ (buildChain_wf es), ?_, ?_⟩
  · rw [verify_chain, buildChain_wf es]
  · rw [verify_chain, verify_mutated _ _ _ (buildChain_wf es) hi hch htv]

/-- Witness for the amended C3: a two-block chain (genesis plus one
append); tampering with the data_hash of block 1 is flagged at index 1. -/
theorem claim_C3_witness :
    (∀ j b b', (buildChain [demoEntry]).get? j = some b →
      (buildChain [demoEntry]).get? (j + 1) = some b' →
      b'.previous_hash = b.self_hash ∧
      b'.self_hash = digestBlock b'.previous_hash b'.data_hash b'.timestamp b'.action) ∧
    verify_chain (buildChain [demoEntry]) = .VERIFIED ∧
    verify_chain (mutateChain (buildChain [demoEntry]) 1 (.dataHash 999)) = .ALERT 1 :=
  claim_C3_hash_chain_integrity [demoEntry] 1 (.dataHash 999) (by decide) (by decide) rfl

/-- The state-passing form of `verify_chain` as an operation on the
ledger: it returns its verdict together with the (unchanged) ledger
state (spec section 4.3: "This operation never mutates the ledger and
never blocks future appends"). -/
def verifyOp (c : List AuditBlock) : VerifyResult × List AuditBlock :=
  (verify_chain c, c)

/-- Modelled from the spec: `get_recent(n)`, the read-only projection of
the last n blocks (spec section 4.3). -/
def get_recent (n : Nat) (c : List AuditBlock) : List AuditBlock :=
  c.drop (c.length - n)

/-- C7: `verify_chain` never mutates the ledger — after a verify call
the stored blocks and the chain length are unchanged — and subsequent
appends and reads still succeed even while the chain is in an ALERT
state: an append on the post-verify ledger adds exactly one block and
preserves every existing block, and reads are unchanged
(`ChainVerificationFailure` is reported, non-fatal). -/
theorem claim_C7_verify_chain_never_mutates (c : List AuditBlock) (i : Nat)
    (e : AuditEntry) (n : Nat) (halert : verify_chain c = .ALERT i) :
    (verifyOp c).2 = c ∧
    ((verifyOp c).2).length = c.length ∧
    get_recent n ((verifyOp c).2) = get_recent n c ∧
    (appendBlock ((verifyOp c).2) e).length = c.length + 1 ∧
    (appendBlock ((verifyOp c).2) e).take c.length = c := by
  refine ⟨rfl, rfl, rfl, ?_, ?_⟩
  · simp [verifyOp, appendBlock]
  · show (c ++ _).take c.length = c
    exact List.take_left c _

/-- Witness for C7 on a concrete tampered (hence ALERT) ledger. -/
theorem claim_C7_witness :
    (verifyOp (mutateChain (buildChain [demoEntry]) 1 (.dataHash 999))).2 =
      mutateChain (buildChain [demoEntry]) 1 (.dataHash 999) ∧
    ((verifyOp (mutateChain (buildChain [demoEntry]) 1 (.dataHash 999))).2).length =
      (mutateChain (buildChain [demoEntry]) 1 (.dataHash 999)).length ∧
    get_recent 1 ((verifyOp (mutateChain (buildChain [demoEntry]) 1 (.dataHash 999))).2) =
      get_recent 1 (mutateChain (buildChain [demoEntry]) 1 (.dataHash 999)) ∧
    (appendBlock ((verifyOp (mutateChain (buildChain [demoEntry]) 1 (.dataHash 999))).2)
        demoEntry2).length =
      (mutateChain (buildChain [demoEntry]) 1 (.dataHash 999)).length + 1 ∧
    (appendBlock ((verifyOp (mutateChain (buildChain [demoEntry]) 1 (.dataHash 999))).2)
        demoEntry2).take (mutateChain (buildChain [demoEntry]) 1 (.dataHash 999)).length =
      mutateChain (buildChain [demoEntry]) 1 (.dataHash 999) :=
  claim_C7_verify_chain_never_mutates
    (mutateChain (buildChain [demoEntry]) 1 (.dataHash 999)) 1 demoEntry2 1 (by decide)

/-- A finite weighted distribution: outcomes paired with rational
weights.  Gives the spec's probabilistic statements about the
InterceptResend attack an exact finite meaning. -/
abbrev Dist (α : Type) : Type := List (α × ℚ)

/-- Expectation of `f` under `d`. -/
def expect {α : Type} (d : Dist α) (f : α → ℚ) : ℚ :=
  (d.map fun p => p.2 * f p.1).sum

/-- Probability of the event `p` under `d`. -/
def probOf {α : Type} (d : Dist α) (p : α → Bool) : ℚ :=
  expect d (fun a => if p a then 1 else 0)

/-- Total mass of `d` (1 for a probability distribution). -/
def mass {α : Type} (d : Dist α) : ℚ := expect d (fun _ => 1)

/-- A Bernoulli draw: `true` with probability `p`. -/
def bern (p : ℚ) : Dist Bool := [(true, p), (false, 1 - p)]

/-- Independent product of two distributions. -/
def dprod {α β : Type} (d : Dist α) (e : Dist β) : Dist (α × β) :=
  d.bind fun pa => e.map fun pb => ((pa.1, pb.1), pa.2 * pb.2)

def dmap {α β : Type} (g : α → β) (d : Dist α) : Dist β :=
  d.map fun p => (g p.1, p.2)

/-- `n` independent copies of `d`, as a distribution over lists. -/
def iid {α : Type} (d : Dist α) : Nat → Dist (List α)
  | 0 => [([], 1)]
  | n + 1 => dmap (fun q => q.1 :: q.2) (dprod d (iid d n))

lemma expect_cons {α : Type} (x : α × ℚ) (d : Dist α) (f : α → ℚ) :
    expect (x :: d) f = x.2 * f x.1 + expect d f := by
  simp [expect]

lemma expect_append {α : Type} (d₁ d₂ : Dist α) (f : α → ℚ) :
    expect (d₁ ++ d₂) f = expect d₁ f + expect d₂ f := by
  simp [expect]

lemma expect_dmap {α β : Type} (g : α → β) (d : Dist α) (f : β → ℚ) :
    expect (dmap g d) f = expect d (fun a => f (g a)) := by
  unfold expect dmap
  rw [List.map_map]
  rfl

lemma mass_cons {α : Type} (x : α × ℚ) (d : Dist α) : mass (x :: d) = x.2 + mass d := by
  simp [mass, expect]

lemma mass_bern (p : ℚ) : mass (bern p) = 1 := by
  simp [mass, bern, expect]

lemma expect_map_pair {α β : Type} (a : α) (w : ℚ) (e : Dist β) (F : α × β → ℚ) :
    expect (e.map fun pb => ((a, pb.1), w * pb.2)) F = w * expect e (fun b => F (a, b)) := by
  induction e with
  | nil => simp [expect]
  | cons pb e ih =>
    rw [List.map_cons, expect_cons, expect_cons, ih]
    ring

lemma dprod_cons {α β : Type} (x : α × ℚ) (d : Dist α) (e : Dist β) :
    dprod (x :: d) e = (e.map fun pb => ((x.1, pb.1), x.2 * pb.2)) ++ dprod d e := by
  simp [dprod]

lemma expect_const_add {β : Type} (e : Dist β) (cst : ℚ) (g : β → ℚ) :
    expect e (fun b => cst + g b) = cst * mass e + expect e g := by
  induction e with
  | nil => simp [expect, mass]
  | cons y e ih =>
    rw [expect_cons, expect_cons, ih, mass_cons]
    ring

lemma expect_dprod_add {α β : Type} (d : Dist α) (e : Dist β) (f : α → ℚ) (g : β → ℚ) :
    expect (dprod d e) (fun q => f q.1 + g q.2) =
      mass e * expect d f + mass d * expect e g := by
  induction d with
  | nil => simp [dprod, expect, mass]
  | cons x d ih =>
    rw [dprod_cons, expect_append, ih, expect_map_pair]
    have hred : (fun b => f (x.1, b).1 + g (x.1, b).2) = fun b => f x.1 + g b := rfl
    rw [hred, expect_const_add, mass_cons, expect_cons]
    ring

lemma mass_dmap {α β : Type} (g : α → β) (d : Dist α) : mass (dmap g d) = mass d := by
  rw [mass, expect_dmap, mass]

lemma mass_dprod {α β : Type} (d : Dist α) (e : Dist β) :
    mass (dprod d e) = mass d * mass e := by
  induction d with
  | nil => simp [dprod, mass, expect]
  | cons x d ih =>
    rw [dprod_cons]
    rw [show mass ((e.map fun pb => ((x.1, pb.1), x.2 * pb.2)) ++ dprod d e) =
      mass (e.map fun pb => ((x.1, pb.1), x.2 * pb.2)) + mass (dprod d e) from
      expect_append _ _ _]
    rw [ih, mass_cons]
    rw [show mass (e.map fun pb => ((x.1, pb.1), x.2 * pb.2)) = x.2 * mass e from
      expect_map_pair _ _ _ _]
    ring

lemma mass_iid {α : Type} (d : Dist α) (hm : mass d = 1) (n : Nat) :
    mass (iid d n) = 1 := by
  induction n with
  | zero => simp [iid, mass, expect]
  | succ n ih =>
    rw [iid, mass_dmap, mass_dprod, hm, ih, one_mul]

/-- Linearity of expectation over independent repetitions: the expected
count of successes over `n` independent draws is `n` times the per-draw
probability. -/
lemma expect_iid_countP {α : Type} (d : Dist α) (p : α → Bool) (hm : mass d = 1) (n : Nat) :
    expect (iid d n) (fun l => (l.countP p : ℚ)) = n * probOf d p := by
  induction n with
  | zero => simp [iid, expect]
  | succ n ih =>
    rw [iid, expect_dmap]
    have hsplit : (fun q : α × List α => ((q.1 :: q.2).countP p : ℚ)) =
        fun q : α × List α => (if p q.1 then (1 : ℚ) else 0) + (q.2.countP p : ℚ) := by
      funext q
      rw [List.countP_cons]
      push_cast
      rcases h : p q.1 with _ | _ <;> simp [h, add_comm]
    rw [hsplit,
      expect_dprod_add d (iid d n) (fun a => if p a then (1 : ℚ) else 0)
        (fun l => (l.countP p : ℚ)),
      mass_iid d hm n, hm, ih, probOf]
    push_cast
    ring

lemma expect_div_const {α : Type} (d : Dist α) (f : α → ℚ) (c : ℚ) :
    expect d (fun a => f a / c) = expect d f / c := by
  induction d with
  | nil => simp [expect]
  | cons x d ih =>
    rw [expect_cons, expect_cons, ih]
    ring

/-- Modelled from the spec: the per-retained-bit experiment of the
InterceptResend attack (spec section 4.2): the bit is intercepted with
probability `r`; an intercepted bit is measured by the observer in an
independently random basis, which mismatches the sender's with
probability 1/2; and a wrong-basis resend flips the receiver's
re-measured bit with probability 1/2. -/
def interceptBitDist (r : ℚ) : Dist (Bool × Bool × Bool) :=
  dprod (bern r) (dprod (bern (1/2)) (bern (1/2)))

/-- The observed bit is flipped exactly when it was intercepted, the
observer's basis mismatched, and the re-measurement came out wrong. -/
def bitFlipped (o : Bool × Bool × Bool) : Bool := o.1 && o.2.1 && o.2.2

lemma mass_interceptBitDist (r : ℚ) : mass (interceptBitDist r) = 1 := by
  rw [interceptBitDist, mass_dprod, mass_dprod, mass_bern, mass_bern]
  norm_num

lemma probOf_flip (r : ℚ) : probOf (interceptBitDist r) bitFlipped = r / 4 := by
  simp [interceptBitDist, probOf, expect, dprod, dmap, bern, bitFlipped]
  ring

lemma probOf_intercepted (r : ℚ) :
    probOf (interceptBitDist r) (fun o => o.1) = r := by
  simp [interceptBitDist, probOf, expect, dprod, dmap, bern]
  ring

lemma probOf_intercepted_mismatched (r : ℚ) :
    probOf (interceptBitDist r) (fun o => o.1 && o.2.1) = r / 2 := by
  simp [interceptBitDist, probOf, expect, dprod, dmap, bern]
  ring

/-- C4 counterexample: in the spec's own InterceptResend model the event
"intercepted and mismatched basis" has probability r/2, and the flip
probability *conditional on that event* is 1/2 (the wrong-basis
re-measurement error), not 0.25: at r = 1 the conditional flip
probability is 1/2 ≠ 1/4.  (0.25 is the flip probability per
*intercepted* bit.) -/
theorem claim_C4_counterexample :
    probOf (interceptBitDist 1) bitFlipped /
      probOf (interceptBitDist 1) (fun o => o.1 && o.2.1) = 1 / 2 ∧
    (1 / 2 : ℚ) ≠ 1 / 4 := by
  constructor
  · rw [probOf_flip, probOf_intercepted_mismatched]
    norm_num
  · norm_num

/-- C4 (amended): for every interception_rate r in (0,1], the
InterceptResend attack flips each *intercepted* bit with fixed
probability 0.25 (= 1/2 wrong-basis × 1/2 re-measurement error; the
flip probability conditional on an intercepted-and-mismatched-basis
event is 1/2), so the expected error rate over a trial of any positive
number of independently attacked retained bits equals 0.25·r. -/
theorem claim_C4_intercept_resend_expected_rate (r : ℚ) (hr0 : 0 < r) (hr1 : r ≤ 1)
    (n : Nat) (hn : 0 < n) :
    probOf (interceptBitDist r) bitFlipped /
      probOf (interceptBitDist r) (fun o => o.1) = 1 / 4 ∧
    probOf (interceptBitDist r) bitFlipped /
      probOf (interceptBitDist r) (fun o => o.1 && o.2.1) = 1 / 2 ∧
    expect (iid (interceptBitDist r) n) (fun l => (l.countP bitFlipped : ℚ) / n) =
      (25 / 100) * r := by
  have hrne : r ≠ 0 := ne_of_gt hr0
  refine ⟨?_, ?_, ?_⟩
  · rw [probOf_flip, probOf_intercepted]
    field_simp
    ring
  · rw [probOf_flip, probOf_intercepted_mismatched]
    field_simp
    ring
  · rw [expect_div_const, expect_iid_countP _ _ (mass_interceptBitDist r) n, probOf_flip]
    have hnne : (n : ℚ) ≠ 0 := Nat.cast_ne_zero.mpr (Nat.pos_iff_ne_zero.mp hn)
    field_simp
    ring

/-- Witness for the amended C4 at r = 1 over 8 retained bits. -/
theorem claim_C4_witness :
    probOf (interceptBitDist 1) bitFlipped /
      probOf (interceptBitDist 1) (fun o => o.1) = 1 / 4 ∧
    probOf (interceptBitDist 1) bitFlipped /
      probOf (interceptBitDist 1) (fun o => o.1 && o.2.1) = 1 / 2 ∧
    expect (iid (interceptBitDist 1) 8) (fun l => (l.countP bitFlipped : ℚ) / 8) =
      (25 / 100) * 1 :=
  claim_C4_intercept_resend_expected_rate 1 zero_lt_one (le_refl 1) 8 (by decide)

end QVoting
